import Mathlib

/-!
Verification of the retail sales Validation + Transform engine.

A shallow embedding of the pipeline's `transform.py` and `validate.py`
modules.  Tabular data is modelled row-wise: a batch is a `List` of row
records whose fields are `Value`s (a cell is a string, a rational number,
a calendar date, or null).  Rational numbers stand in for the floating
point columns; null (`NaN`/`NaT`/`None`/`pd.NA`) is a single marker, as in
pandas' missing-value semantics relevant here (null equals null for
deduplication, grouping and merge keys; null is skipped by sums, counts
and means; arithmetic on null yields null).
-/

set_option maxRecDepth 4000

/-- A calendar date (used for a parsed `date` cell). -/
structure Date where
  year : Nat
  month : Nat
  day : Nat
deriving DecidableEq, Repr

/-- A single cell of a batch: null (`NaN`/`NaT`/`None`), a string, a
rational number, or a parsed calendar date. -/
inductive Value where
  | null
  | str (s : String)
  | num (q : ℚ)
  | date (d : Date)
deriving DecidableEq, Repr

/-- `True` exactly on the null marker: pandas `isna`. -/
def isNullB (v : Value) : Bool :=
  match v with
  | .null => true
  | _ => false

/-- Numeric view of a cell for summation: a number is itself, anything
else (in particular null) contributes `0`, mirroring pandas' `skipna`
sums. -/
def qval (v : Value) : ℚ :=
  match v with
  | .num q => q
  | _ => 0

/-- Sum of a column, skipping nulls (pandas `Series.sum`). -/
def qsum (l : List Value) : ℚ :=
  (l.map qval).sum

/-- Count of non-null cells (pandas `count` aggregation). -/
def countNonNull (l : List Value) : Nat :=
  l.countP (fun v => !(isNullB v))

/-- Mean of a column skipping nulls; the mean of an all-null column is
null, not zero (pandas `mean` aggregation). -/
def vmean (l : List Value) : Value :=
  let xs := l.filterMap (fun v => match v with | .num q => some q | _ => none)
  match xs with
  | [] => .null
  | _ => .num (xs.sum / (xs.length : ℚ))

/-- Null-propagating binary arithmetic: defined only when both operands
are numbers, null otherwise (pandas element-wise arithmetic with `NaN`). -/
def vbin (f : ℚ → ℚ → ℚ) (a b : Value) : Value :=
  match a, b with
  | .num x, .num y => .num (f x y)
  | _, _ => .null

def vmul : Value → Value → Value := vbin (fun x y => x * y)

def vsub : Value → Value → Value := vbin (fun x y => x - y)

/-- Null-propagating division; a zero divisor also yields null (the
callers below always shield the divisor with `replaceZero` first). -/
def vdiv (a b : Value) : Value :=
  match a, b with
  | .num x, .num y => if y = 0 then .null else .num (x / y)
  | _, _ => .null

/-- `Series.replace(0, pd.NA)`: an exact zero becomes null, every other
cell is unchanged. -/
def replaceZero (v : Value) : Value :=
  match v with
  | .num q => if q = 0 then .null else .num q
  | w => w

/-- Round a rational to 2 decimal places (`round(x, 2)` / `.round(2)`).
`round` here rounds halves up whereas numpy rounds halves to even; the
two differ only on exact half-cent values, which no theorem below
depends on. -/
def round2 (q : ℚ) : ℚ :=
  ((round (q * 100) : ℤ) : ℚ) / 100

/-- `.round(2)` on a cell: numbers are rounded, null stays null. -/
def vround2 (v : Value) : Value :=
  match v with
  | .num q => .num (round2 q)
  | _ => .null

/-! ## String parsing: `pd.to_numeric` and `pd.to_datetime` on a cell -/

/-- The numeric value of a decimal digit character, if it is one. -/
def digitVal (c : Char) : Option Nat :=
  if c.isDigit then some (c.toNat - 48) else none

def digitsToNatAux (acc : Nat) : List Char → Option Nat
  | [] => some acc
  | c :: cs =>
    match digitVal c with
    | some d => digitsToNatAux (acc * 10 + d) cs
    | none => none

/-- Read a non-empty all-digit string as a natural number. -/
def digitsToNat : List Char → Option Nat
  | [] => none
  | cs => digitsToNatAux 0 cs

/-- Split a character list on a separator character. -/
def splitOnChar (sep : Char) : List Char → List (List Char)
  | [] => [[]]
  | c :: cs =>
    let r := splitOnChar sep cs
    if c = sep then [] :: r
    else
      match r with
      | [] => [[c]]
      | g :: gs => (c :: g) :: gs

def isLeapYear (y : Nat) : Bool :=
  (y % 4 = 0 && y % 100 ≠ 0) || y % 400 = 0

def daysInMonth (y m : Nat) : Nat :=
  if m = 2 then (if isLeapYear y then 29 else 28)
  else if m = 4 || m = 6 || m = 9 || m = 11 then 30
  else 31

/-- Parse a `YYYY-MM-DD` string into a valid calendar date
(`strptime` with format `%Y-%m-%d`, with calendar validity checked). -/
def parseYMD (cs : List Char) : Option Date :=
  match splitOnChar (Char.ofNat 45) cs with
  | [ys, ms, ds] =>
    if ys.length ≤ 4 && ms.length ≤ 2 && ds.length ≤ 2 then
      match digitsToNat ys, digitsToNat ms, digitsToNat ds with
      | some y, some m, some d =>
        if 1 ≤ m && m ≤ 12 && 1 ≤ d && d ≤ daysInMonth y m then
          some ⟨y, m, d⟩
        else none
      | _, _, _ => none
    else none
  | _ => none

/-- Parse a signed plain decimal literal (`-12`, `3.25`, `.5`) into a
rational; models the numeric strings `pd.to_numeric` accepts in this
data set. -/
def parseQ (cs : List Char) : Option ℚ :=
  let core : List Char → Option ℚ := fun body =>
    match splitOnChar (Char.ofNat 46) body with
    | [ip] =>
      (digitsToNat ip).map (fun i => (i : ℚ))
    | [ip, fp] =>
      if ip.isEmpty && fp.isEmpty then none
      else
        match digitsToNatAux 0 ip, digitsToNatAux 0 fp with
        | some i, some f => some ((i : ℚ) + (f : ℚ) / ((10 : ℚ) ^ fp.length))
        | _, _ => none
    | _ => none
  match cs with
  | c :: rest =>
    if c = Char.ofNat 45 then (core rest).map (fun q => -q)
    else if c = Char.ofNat 43 then core rest
    else core cs
  | [] => none

/-- `pd.to_numeric(x, errors="coerce")` on a cell: numbers pass through,
numeric strings are parsed, everything unparsable becomes null. -/
def toNumeric (v : Value) : Value :=
  match v with
  | .num q => .num q
  | .str s =>
    match parseQ s.toList with
    | some q => .num q
    | none => .null
  | _ => .null

/-- `pd.to_datetime(x, format="%Y-%m-%d", errors="coerce")` on a cell:
already-parsed dates pass through, matching strings are parsed,
everything else becomes null (`NaT`). -/
def parseDateYMD (v : Value) : Value :=
  match v with
  | .date d => .date d
  | .str s =>
    match parseYMD s.toList with
    | some d => .date d
    | none => .null
  | _ => .null

/-- `Series.fillna(x)` on a cell. -/
def fillna (x v : Value) : Value :=
  if isNullB v then x else v

/-- `.astype("Int64")` on a numeric cell: null passes through as `NA`,
an integral number passes through, and a non-integral number makes the
cast fail (pandas raises "cannot safely cast"), modelled as `none`. -/
def toInt64 (v : Value) : Option Value :=
  match v with
  | .null => some .null
  | .num q => if q.den = 1 then some (.num q) else none
  | _ => none

/-! ## Generic list machinery translated from pandas primitives -/

/-- Worker for `dedupFirst`: `seen` is the set of key values already
emitted; a row whose key was seen is dropped. -/
def dedupFirstAux {α κ : Type} [DecidableEq κ] (key : α → κ) (seen : List κ) :
    List α → List α
  | [] => []
  | x :: xs =>
    if key x ∈ seen then dedupFirstAux key seen xs
    else x :: dedupFirstAux key (key x :: seen) xs

/-- `df.drop_duplicates(subset=[key], keep="first")`: keep the first row
for each key value, in original order (null keys compare equal, as in
pandas `duplicated`). -/
def dedupFirst {α κ : Type} [DecidableEq κ] (key : α → κ) (l : List α) : List α :=
  dedupFirstAux key [] l

/-- Option-valued map over a list: fails if any element fails. -/
def mapMO {α β : Type} (f : α → Option β) : List α → Option (List β)
  | [] => some []
  | x :: xs =>
    match f x, mapMO f xs with
    | some y, some ys => some (y :: ys)
    | _, _ => none

/-! ## Row records -/

/-- One row of the raw (and cleaned) sales batch. -/
structure RawSale where
  transaction_id : Value
  date : Value
  product_id : Value
  quantity : Value
  unit_price : Value
  customer_id : Value
  store_id : Value
  discount_pct : Value
deriving DecidableEq, Repr

/-- One row of the cleaned product catalogue (the columns
`merge_sales_products` selects). -/
structure Product where
  product_id : Value
  name : Value
  category : Value
  brand : Value
  cost_price : Value
deriving DecidableEq, Repr

/-- A sales row enriched with the joined product columns. -/
structure Enriched extends RawSale where
  name : Value
  category : Value
  brand : Value
  cost_price : Value
deriving DecidableEq, Repr

/-- An enriched row with the six derived metric columns. -/
structure Metrics extends Enriched where
  gross_revenue : Value
  discount_amount : Value
  net_revenue : Value
  cost_total : Value
  profit : Value
  profit_margin_pct : Value
deriving DecidableEq, Repr

def nullSale : RawSale :=
  ⟨.null, .null, .null, .null, .null, .null, .null, .null⟩

def nullEnriched : Enriched :=
  ⟨nullSale, .null, .null, .null, .null⟩

/-! ## `clean_sales` -/

/-- The per-row effect of `clean_sales` after deduplication: the four
column-wise steps (date parsing, customer fill, numeric coercions) act
independently per row.  The `Int64` cast of `quantity` can fail, which
makes the whole cleaning fail (pandas raises). -/
def cleanRow (r : RawSale) : Option RawSale :=
  (toInt64 (toNumeric r.quantity)).map (fun q =>
    { r with
        date := parseDateYMD r.date
        customer_id := fillna (Value.str ("UNKNOWN")) r.customer_id
        quantity := q
        unit_price := toNumeric r.unit_price
        discount_pct := fillna (Value.num 0) (toNumeric r.discount_pct) })

/-- `clean_sales`: drop duplicate `transaction_id` rows keeping the
first, then parse dates, fill missing customer ids, and coerce the
numeric columns; `none` models the raising `astype("Int64")` cast. -/
def clean_sales (df : List RawSale) : Option (List RawSale) :=
  mapMO cleanRow (dedupFirst (fun r => r.transaction_id) df)

/-! ## `merge_sales_products` -/

/-- Left-join one sales row against the catalogue: all rows of
`products` whose `product_id` equals the sale's key produce one output
row each (pandas merge fan-out); with no match the product columns are
null. -/
def mergeRow (products : List Product) (s : RawSale) : List Enriched :=
  match products.filter (fun p => p.product_id = s.product_id) with
  | [] => [{ toRawSale := s, name := .null, category := .null, brand := .null,
             cost_price := .null }]
  | ps => ps.map (fun p =>
      { toRawSale := s, name := p.name, category := p.category, brand := p.brand,
        cost_price := p.cost_price })

/-- `sales_df.merge(products_df[cols], on="product_id", how="left")`:
every sales row, in order, joined against the catalogue. -/
def merge_sales_products (sales : List RawSale) (products : List Product) :
    List Enriched :=
  sales.flatMap (mergeRow products)

/-- First catalogue row matching a key, extended to the null product on
a miss: the per-row view of the left join when catalogue keys are
unique. -/
def enrichLookup (products : List Product) (s : RawSale) : Enriched :=
  match products.find? (fun p => p.product_id = s.product_id) with
  | some p =>
    { toRawSale := s, name := p.name, category := p.category, brand := p.brand,
      cost_price := p.cost_price }
  | none =>
    { toRawSale := s, name := .null, category := .null, brand := .null,
      cost_price := .null }

/-! ## `calculate_metrics` -/

/-- The per-row computation of `calculate_metrics`: the six derived
columns, with null propagation and the zero-net-revenue guard
(`net_revenue.replace(0, pd.NA)` shields the division). -/
def calcMetricsRow (r : Enriched) : Metrics :=
  let gross := vmul r.quantity r.unit_price
  let disc := vmul gross r.discount_pct
  let net := vsub gross disc
  let cost := vmul r.quantity r.cost_price
  let prof := vsub net cost
  { toEnriched := r
    gross_revenue := gross
    discount_amount := disc
    net_revenue := net
    cost_total := cost
    profit := prof
    profit_margin_pct := vround2 (vmul (vdiv prof (replaceZero net)) (.num 100)) }

def calculate_metrics (df : List Enriched) : List Metrics :=
  df.map calcMetricsRow

/-! ## Aggregations -/

/-- One row of the category summary. -/
structure CatSummary where
  category : Value
  total_transactions : Nat
  total_units_sold : Value
  total_gross_revenue : Value
  total_net_revenue : Value
  total_profit : Value
deriving DecidableEq, Repr

/-- One row of the store summary. -/
structure StoreSummary where
  store_id : Value
  total_transactions : Nat
  total_units_sold : Value
  total_net_revenue : Value
  total_profit : Value
  avg_profit_margin_pct : Value
deriving DecidableEq, Repr

/-- One row of the daily summary. -/
structure DateSummary where
  date : Value
  total_transactions : Nat
  total_units_sold : Value
  total_net_revenue : Value
  total_profit : Value
deriving DecidableEq, Repr

/-- The distinct non-null values of a grouping column, in first-seen
order: pandas `groupby` silently drops rows whose key is null
(`dropna=True` is the default). -/
def groupKeys (keyCol : List Value) : List Value :=
  dedupFirst id (keyCol.filter (fun v => !(isNullB v)))

/-- The rows of a batch falling in one group. -/
def groupOf (key : Metrics → Value) (df : List Metrics) (k : Value) :
    List Metrics :=
  df.filter (fun r => key r = k)

def mkCatRow (df : List Metrics) (k : Value) : CatSummary :=
  let g := groupOf (fun r => r.category) df k
  { category := k
    total_transactions := countNonNull (g.map (fun r => r.transaction_id))
    total_units_sold := Value.num (qsum (g.map (fun r => r.quantity)))
    total_gross_revenue := Value.num (round2 (qsum (g.map (fun r => r.gross_revenue))))
    total_net_revenue := Value.num (round2 (qsum (g.map (fun r => r.net_revenue))))
    total_profit := Value.num (round2 (qsum (g.map (fun r => r.profit)))) }

def mkStoreRow (df : List Metrics) (k : Value) : StoreSummary :=
  let g := groupOf (fun r => r.store_id) df k
  { store_id := k
    total_transactions := countNonNull (g.map (fun r => r.transaction_id))
    total_units_sold := Value.num (qsum (g.map (fun r => r.quantity)))
    total_net_revenue := Value.num (round2 (qsum (g.map (fun r => r.net_revenue))))
    total_profit := Value.num (round2 (qsum (g.map (fun r => r.profit))))
    avg_profit_margin_pct := vround2 (vmean (g.map (fun r => r.profit_margin_pct))) }

def mkDateRow (df : List Metrics) (k : Value) : DateSummary :=
  let g := groupOf (fun r => r.date) df k
  { date := k
    total_transactions := countNonNull (g.map (fun r => r.transaction_id))
    total_units_sold := Value.num (qsum (g.map (fun r => r.quantity)))
    total_net_revenue := Value.num (round2 (qsum (g.map (fun r => r.net_revenue))))
    total_profit := Value.num (round2 (qsum (g.map (fun r => r.profit)))) }

/-- Descending order on a summary's (always numeric) net revenue:
`sort_values("total_net_revenue", ascending=False)`. -/
def catRevDesc (a b : CatSummary) : Prop :=
  qval b.total_net_revenue ≤ qval a.total_net_revenue

instance : DecidableRel catRevDesc := fun _ _ =>
  inferInstanceAs (Decidable (_ ≤ _))

def storeRevDesc (a b : StoreSummary) : Prop :=
  qval b.total_net_revenue ≤ qval a.total_net_revenue

instance : DecidableRel storeRevDesc := fun _ _ =>
  inferInstanceAs (Decidable (_ ≤ _))

/-- Numeric sort key of a date cell (`YYYYMMDD`); after a
null-key-dropping groupby on a parsed date column the keys are calendar
dates, and this orders them chronologically (`sort_values("date")`). -/
def dateKey (v : Value) : Nat :=
  match v with
  | .date d => d.year * 10000 + d.month * 100 + d.day
  | _ => 0

def dateAsc (a b : DateSummary) : Prop :=
  dateKey a.date ≤ dateKey b.date

instance : DecidableRel dateAsc := fun _ _ =>
  inferInstanceAs (Decidable (_ ≤ _))

/-- `aggregate_by_category`: group on `category` (null keys dropped),
count/sum each group, round to 2 decimals, sort by net revenue
descending. -/
def aggregate_by_category (df : List Metrics) : List CatSummary :=
  List.insertionSort catRevDesc
    ((groupKeys (df.map (fun r => r.category))).map (mkCatRow df))

/-- `aggregate_by_store`: group on `store_id` (null keys dropped), with
the mean of per-row profit margin, sorted by net revenue descending. -/
def aggregate_by_store (df : List Metrics) : List StoreSummary :=
  List.insertionSort storeRevDesc
    ((groupKeys (df.map (fun r => r.store_id))).map (mkStoreRow df))

/-- `aggregate_by_date`: group on `date` (null `NaT` keys dropped),
sorted chronologically. -/
def aggregate_by_date (df : List Metrics) : List DateSummary :=
  List.insertionSort dateAsc
    ((groupKeys (df.map (fun r => r.date))).map (mkDateRow df))

/-! ## Validators (`validate.py`)

A raw DataFrame for the validators is column-oriented: an association
list from column name to cell list.  Each check returns a small record
mirroring the result dict of the source; the `message` string formats
are modelled by a structured message type carrying the same data. -/

/-- A column-oriented DataFrame: name to cells. -/
def DFrame : Type := List (String × List Value)

/-- `df.columns`. -/
def colNames (df : DFrame) : List String :=
  df.map Prod.fst

/-- The cells of a named column, if present. -/
def getCol (df : DFrame) (c : String) : Option (List Value) :=
  (df.find? (fun p => p.fst = c)).map Prod.snd

/-- Structured rendering of the validator message strings. -/
inductive VMessage where
  | nullsFound (counts : List (String × Nat))
  | noNulls
  | columnNotFound (col : String)
  | duplicatesFound (col : String) (vals : List Value)
  | noDuplicates (col : String)
  | outOfRange (col : String) (count : Nat) (lo hi : ℚ)
  | inRange (col : String) (lo hi : ℚ)
  | badDates (col : String) (count : Nat)
  | datesOk (col : String)
deriving DecidableEq, Repr

/-- Result dict of `check_no_nulls`. -/
structure NoNullsResult where
  passed : Bool
  message : VMessage
  null_counts : List (String × Nat)
deriving DecidableEq, Repr

/-- Result dict of `check_no_duplicates`; `duplicate_values` is absent
(`none`) on the missing-column branch. -/
structure DupResult where
  passed : Bool
  message : VMessage
  duplicate_values : Option (List Value)
deriving DecidableEq, Repr

/-- Result dict of `check_numeric_range`. -/
structure RangeResult where
  passed : Bool
  message : VMessage
  out_of_range_count : Option Nat
deriving DecidableEq, Repr

/-- Result dict of `check_date_format`. -/
structure DateFmtResult where
  passed : Bool
  message : VMessage
  invalid_count : Option Nat
deriving DecidableEq, Repr

/-- `check_no_nulls`: per-column null counts over the requested columns
that exist (a requested column absent from the frame is skipped by the
comprehension's `if col in df.columns` guard); fails only when an
existing requested column contains a null. -/
def check_no_nulls (df : DFrame) (columns : List String) : NoNullsResult :=
  let null_counts := columns.filterMap (fun c =>
    (getCol df c).map (fun col => (c, col.countP isNullB)))
  let problem_cols := null_counts.filter (fun p => 0 < p.snd)
  if problem_cols.isEmpty then
    { passed := true, message := .noNulls, null_counts := null_counts }
  else
    { passed := false, message := .nullsFound problem_cols,
      null_counts := null_counts }

/-- `check_no_duplicates`: the distinct values occurring more than once
in the key column, in first-seen order (`duplicated(keep=False)` then
`unique()`); a missing column fails with a not-found message. -/
def check_no_duplicates (df : DFrame) (key_column : String) : DupResult :=
  match getCol df key_column with
  | none =>
    { passed := false, message := .columnNotFound key_column,
      duplicate_values := none }
  | some col =>
    let dups := (dedupFirst id col).filter (fun v => 2 ≤ col.count v)
    if dups.isEmpty then
      { passed := true, message := .noDuplicates key_column,
        duplicate_values := some [] }
    else
      { passed := false, message := .duplicatesFound key_column dups,
        duplicate_values := some dups }

/-- `check_numeric_range`: coerce the column with `to_numeric` (so
non-numeric cells become null and are excluded), then count cells
strictly outside the inclusive bounds; a missing column fails with a
not-found message. -/
def check_numeric_range (df : DFrame) (column : String) (min_val max_val : ℚ) :
    RangeResult :=
  match getCol df column with
  | none =>
    { passed := false, message := .columnNotFound column,
      out_of_range_count := none }
  | some col =>
    let series := col.map toNumeric
    let out_of_range := series.filter (fun v =>
      match v with
      | .num q => decide (q < min_val ∨ max_val < q)
      | _ => false)
    if out_of_range.isEmpty then
      { passed := true, message := .inRange column min_val max_val,
        out_of_range_count := some 0 }
    else
      { passed := false,
        message := .outOfRange column out_of_range.length min_val max_val,
        out_of_range_count := some out_of_range.length }

/-- `check_date_format` at the suite's fixed `%Y-%m-%d` format: parse the
column with `to_datetime(errors="coerce")` and count the nulls of the
parse; a missing column fails with a not-found message. -/
def check_date_format (df : DFrame) (column : String) : DateFmtResult :=
  match getCol df column with
  | none =>
    { passed := false, message := .columnNotFound column,
      invalid_count := none }
  | some col =>
    let invalid := (col.map parseDateYMD).countP isNullB
    if invalid = 0 then
      { passed := true, message := .datesOk column, invalid_count := some 0 }
    else
      { passed := false, message := .badDates column invalid,
        invalid_count := some invalid }

/-! ## Lemmas about `mapMO` -/

theorem mapMO_length {α β : Type} {f : α → Option β} :
    ∀ {l : List α} {c : List β}, mapMO f l = some c → c.length = l.length := by
  intro l
  induction l with
  | nil =>
    intro c h
    simp only [mapMO, Option.some.injEq] at h
    subst h; rfl
  | cons x xs ih =>
    intro c h
    simp only [mapMO] at h
    cases hfx : f x with
    | none => rw [hfx] at h; exact absurd h (by simp)
    | some y =>
      rw [hfx] at h
      cases hxs : mapMO f xs with
      | none => rw [hxs] at h; exact absurd h (by simp)
      | some ys =>
        rw [hxs] at h
        simp only [Option.some.injEq] at h
        subst h
        simp [ih hxs]

theorem mapMO_map_eq {α β γ : Type} {f : α → Option β} {g : β → γ} {k : α → γ}
    (hpres : ∀ a b, f a = some b → g b = k a) :
    ∀ {l : List α} {c : List β}, mapMO f l = some c → c.map g = l.map k := by
  intro l
  induction l with
  | nil =>
    intro c h
    simp only [mapMO, Option.some.injEq] at h
    subst h; rfl
  | cons x xs ih =>
    intro c h
    simp only [mapMO] at h
    cases hfx : f x with
    | none => rw [hfx] at h; exact absurd h (by simp)
    | some y =>
      rw [hfx] at h
      cases hxs : mapMO f xs with
      | none => rw [hxs] at h; exact absurd h (by simp)
      | some ys =>
        rw [hxs] at h
        simp only [Option.some.injEq] at h
        subst h
        simp [ih hxs, hpres x y hfx]

theorem mapMO_backward {α β : Type} {f : α → Option β} :
    ∀ {l : List α} {c : List β}, mapMO f l = some c →
      ∀ y ∈ c, ∃ x ∈ l, f x = some y := by
  intro l
  induction l with
  | nil =>
    intro c h
    simp only [mapMO, Option.some.injEq] at h
    subst h; intro y hy; exact absurd hy (by simp)
  | cons x xs ih =>
    intro c h
    simp only [mapMO] at h
    cases hfx : f x with
    | none => rw [hfx] at h; exact absurd h (by simp)
    | some y0 =>
      rw [hfx] at h
      cases hxs : mapMO f xs with
      | none => rw [hxs] at h; exact absurd h (by simp)
      | some ys =>
        rw [hxs] at h
        simp only [Option.some.injEq] at h
        subst h
        intro y hy
        rcases List.mem_cons.mp hy with rfl | hy2
        · exact ⟨x, List.mem_cons_self x xs, hfx⟩
        · rcases ih hxs y hy2 with ⟨a, ha, hfa⟩
          exact ⟨a, List.mem_cons_of_mem x ha, hfa⟩

theorem mapMO_idem {α : Type} {f : α → Option α}
    (hf : ∀ a b, f a = some b → f b = some b) :
    ∀ {l c : List α}, mapMO f l = some c → mapMO f c = some c := by
  intro l
  induction l with
  | nil =>
    intro c h
    simp only [mapMO, Option.some.injEq] at h
    subst h; rfl
  | cons x xs ih =>
    intro c h
    simp only [mapMO] at h
    cases hfx : f x with
    | none => rw [hfx] at h; exact absurd h (by simp)
    | some y =>
      rw [hfx] at h
      cases hxs : mapMO f xs with
      | none => rw [hxs] at h; exact absurd h (by simp)
      | some ys =>
        rw [hxs] at h
        simp only [Option.some.injEq] at h
        subst h
        simp only [mapMO, hf x y hfx, ih hxs]

/-! ## Lemmas about `dedupFirst` -/

theorem dedupFirstAux_key_notin_seen {α κ : Type} [DecidableEq κ] {key : α → κ} :
    ∀ {l : List α} {seen : List κ} {x : α},
      x ∈ dedupFirstAux key seen l → key x ∉ seen := by
  intro l
  induction l with
  | nil => intro seen x hx; exact absurd hx (by simp [dedupFirstAux])
  | cons a l ih =>
    intro seen x hx
    by_cases ha : key a ∈ seen
    · rw [dedupFirstAux, if_pos ha] at hx
      exact ih hx
    · rw [dedupFirstAux, if_neg ha] at hx
      rcases List.mem_cons.mp hx with rfl | hx2
      · exact ha
      · intro hmem
        exact ih hx2 (List.mem_cons_of_mem _ hmem)

theorem dedupFirstAux_keys_nodup {α κ : Type} [DecidableEq κ] {key : α → κ} :
    ∀ {l : List α} {seen : List κ},
      ((dedupFirstAux key seen l).map key).Nodup := by
  intro l
  induction l with
  | nil => intro seen; simp [dedupFirstAux]
  | cons a l ih =>
    intro seen
    by_cases ha : key a ∈ seen
    · rw [dedupFirstAux, if_pos ha]; exact ih
    · rw [dedupFirstAux, if_neg ha]
      simp only [List.map_cons, List.nodup_cons]
      refine ⟨?_, ih⟩
      intro hmem
      rcases List.mem_map.mp hmem with ⟨y, hy, hky⟩
      exact dedupFirstAux_key_notin_seen hy (hky ▸ List.mem_cons_self _ _)

theorem dedupFirstAux_mem_keys {α κ : Type} [DecidableEq κ] {key : α → κ} :
    ∀ {l : List α} {seen : List κ} {x : α}, x ∈ l → key x ∉ seen →
      key x ∈ (dedupFirstAux key seen l).map key := by
  intro l
  induction l with
  | nil => intro seen x hx; exact absurd hx (by simp)
  | cons a l ih =>
    intro seen x hx hns
    by_cases ha : key a ∈ seen
    · rw [dedupFirstAux, if_pos ha]
      rcases List.mem_cons.mp hx with rfl | hx2
      · exact absurd ha hns
      · exact ih hx2 hns
    · rw [dedupFirstAux, if_neg ha]
      rcases List.mem_cons.mp hx with rfl | hx2
      · simp
      · by_cases hk : key x = key a
        · simp [hk]
        · have : key x ∉ key a :: seen := by
            intro hc
            rcases List.mem_cons.mp hc with h1 | h2
            · exact hk h1
            · exact hns h2
          simp only [List.map_cons, List.mem_cons]
          exact Or.inr (ih hx2 this)

theorem dedupFirstAux_decomp {α κ : Type} [DecidableEq κ] {key : α → κ} :
    ∀ {l : List α} {seen : List κ} {x : α}, x ∈ dedupFirstAux key seen l →
      ∃ pre post, l = pre ++ x :: post ∧ ∀ p ∈ pre, key p ≠ key x := by
  intro l
  induction l with
  | nil => intro seen x hx; exact absurd hx (by simp [dedupFirstAux])
  | cons a l ih =>
    intro seen x hx
    by_cases ha : key a ∈ seen
    · rw [dedupFirstAux, if_pos ha] at hx
      rcases ih hx with ⟨pre, post, hdec, hpre⟩
      refine ⟨a :: pre, post, by simp [hdec], ?_⟩
      intro p hp
      rcases List.mem_cons.mp hp with rfl | hp2
      · intro hc
        exact dedupFirstAux_key_notin_seen hx (hc ▸ ha)
      · exact hpre p hp2
    · rw [dedupFirstAux, if_neg ha] at hx
      rcases List.mem_cons.mp hx with rfl | hx2
      · exact ⟨[], l, rfl, by simp⟩
      · rcases ih hx2 with ⟨pre, post, hdec, hpre⟩
        refine ⟨a :: pre, post, by simp [hdec], ?_⟩
        intro p hp
        rcases List.mem_cons.mp hp with rfl | hp2
        · intro hc
          exact dedupFirstAux_key_notin_seen hx2 (hc ▸ List.mem_cons_self _ _)
        · exact hpre p hp2

theorem dedupFirstAux_eq_self {α κ : Type} [DecidableEq κ] {key : α → κ} :
    ∀ {l : List α} {seen : List κ}, (l.map key).Nodup →
      (∀ x ∈ l, key x ∉ seen) → dedupFirstAux key seen l = l := by
  intro l
  induction l with
  | nil => intro seen _ _; rfl
  | cons a l ih =>
    intro seen hnd hns
    have ha : key a ∉ seen := hns a (List.mem_cons_self _ _)
    rw [dedupFirstAux, if_neg ha]
    congr 1
    apply ih
    · exact (List.nodup_cons.mp hnd).2
    · intro x hx hc
      rcases List.mem_cons.mp hc with h1 | h2
      · exact (List.nodup_cons.mp hnd).1 (h1 ▸ List.mem_map_of_mem key hx)
      · exact hns x (List.mem_cons_of_mem _ hx) h2

theorem dedupFirst_keys_nodup {α κ : Type} [DecidableEq κ] {key : α → κ}
    {l : List α} : ((dedupFirst key l).map key).Nodup :=
  dedupFirstAux_keys_nodup

theorem dedupFirst_mem_keys {α κ : Type} [DecidableEq κ] {key : α → κ}
    {l : List α} {x : α} (hx : x ∈ l) : key x ∈ (dedupFirst key l).map key :=
  dedupFirstAux_mem_keys hx (by simp)

theorem dedupFirst_decomp {α κ : Type} [DecidableEq κ] {key : α → κ}
    {l : List α} {x : α} (hx : x ∈ dedupFirst key l) :
    ∃ pre post, l = pre ++ x :: post ∧ ∀ p ∈ pre, key p ≠ key x :=
  dedupFirstAux_decomp hx

theorem dedupFirst_eq_self {α κ : Type} [DecidableEq κ] {key : α → κ}
    {l : List α} (h : (l.map key).Nodup) : dedupFirst key l = l :=
  dedupFirstAux_eq_self h (by simp)

/-! ## Per-cell idempotence facts for the cleaning steps -/

theorem parseDateYMD_idem (v : Value) :
    parseDateYMD (parseDateYMD v) = parseDateYMD v := by
  cases v with
  | null => rfl
  | num q => rfl
  | date d => rfl
  | str s =>
    simp only [parseDateYMD]
    cases parseYMD s.toList <;> rfl

theorem fillna_idem (x v : Value) (hx : isNullB x = false) :
    fillna x (fillna x v) = fillna x v := by
  by_cases hv : isNullB v = true
  · simp [fillna, hv, hx]
  · simp only [Bool.not_eq_true] at hv
    simp [fillna, hv]

theorem toNumeric_shape (v : Value) :
    toNumeric v = .null ∨ ∃ q, toNumeric v = .num q := by
  cases v with
  | null => exact Or.inl rfl
  | num q => exact Or.inr ⟨q, rfl⟩
  | date d => exact Or.inl rfl
  | str s =>
    simp only [toNumeric]
    cases parseQ s.toList with
    | none => exact Or.inl rfl
    | some q => exact Or.inr ⟨q, rfl⟩

theorem toNumeric_idem (v : Value) : toNumeric (toNumeric v) = toNumeric v := by
  rcases toNumeric_shape v with h | ⟨q, h⟩ <;> rw [h] <;> rfl

theorem discount_clean_idem (v : Value) :
    fillna (.num 0) (toNumeric (fillna (.num 0) (toNumeric v))) =
      fillna (.num 0) (toNumeric v) := by
  rcases toNumeric_shape v with h | ⟨q, h⟩ <;> rw [h] <;> rfl

theorem quantity_clean_step {v q : Value} (h : toInt64 (toNumeric v) = some q) :
    toNumeric q = q ∧ toInt64 q = some q := by
  rcases toNumeric_shape v with hs | ⟨n, hs⟩
  · rw [hs] at h
    simp only [toInt64, Option.some.injEq] at h
    subst h
    exact ⟨rfl, rfl⟩
  · rw [hs] at h
    simp only [toInt64] at h
    by_cases hd : n.den = 1
    · rw [if_pos hd] at h
      simp only [Option.some.injEq] at h
      subst h
      exact ⟨rfl, by simp [toInt64, hd]⟩
    · rw [if_neg hd] at h
      exact absurd h (by simp)

theorem cleanRow_tid {r r2 : RawSale} (h : cleanRow r = some r2) :
    r2.transaction_id = r.transaction_id := by
  unfold cleanRow at h
  cases hq : toInt64 (toNumeric r.quantity) with
  | none => rw [hq] at h; exact absurd h (by simp)
  | some q =>
    rw [hq] at h
    simp only [Option.map_some'] at h
    cases h
    rfl

theorem cleanRow_idem {r r2 : RawSale} (h : cleanRow r = some r2) :
    cleanRow r2 = some r2 := by
  unfold cleanRow at h ⊢
  cases hq : toInt64 (toNumeric r.quantity) with
  | none => rw [hq] at h; exact absurd h (by simp)
  | some q =>
    rw [hq] at h
    simp only [Option.map_some'] at h
    cases h
    rcases quantity_clean_step hq with ⟨hnum, hcast⟩
    simp only [hnum, hcast, Option.map_some']
    congr 1
    have hdate := parseDateYMD_idem r.date
    have hcust := fillna_idem (.str ("UNKNOWN")) r.customer_id rfl
    have hprice := toNumeric_idem r.unit_price
    have hdisc := discount_clean_idem r.discount_pct
    simp [hdate, hcust, hprice, hdisc]

/-- Claim C6: `clean_sales` is idempotent on its own output: whenever it
succeeds, applying it to the result reproduces the result exactly. -/
theorem clean_sales_idem (b c : List RawSale) (h : clean_sales b = some c) :
    clean_sales c = some c := by
  unfold clean_sales at h ⊢
  have hkeys : c.map (fun r => r.transaction_id) =
      (dedupFirst (fun r => r.transaction_id) b).map (fun r => r.transaction_id) :=
    mapMO_map_eq (fun a b2 hab => cleanRow_tid hab) h
  have hnd : (c.map (fun r => r.transaction_id)).Nodup := by
    rw [hkeys]; exact dedupFirst_keys_nodup
  rw [dedupFirst_eq_self hnd]
  exact mapMO_idem (fun a b2 hab => cleanRow_idem hab) h

/-- Claim C7: the output of `clean_sales` has pairwise-distinct
`transaction_id`s, every input key survives, and each output row is the
cleaned image of the first input row bearing its key. -/
theorem clean_sales_dedup_spec (b c : List RawSale) (h : clean_sales b = some c) :
    (c.map (fun r => r.transaction_id)).Nodup ∧
    (∀ r ∈ b, ∃ r2 ∈ c, r2.transaction_id = r.transaction_id) ∧
    (∀ r2 ∈ c, ∃ r pre post, b = pre ++ r :: post ∧ cleanRow r = some r2 ∧
      r.transaction_id = r2.transaction_id ∧
      ∀ p ∈ pre, p.transaction_id ≠ r.transaction_id) := by
  unfold clean_sales at h
  have hkeys : c.map (fun r => r.transaction_id) =
      (dedupFirst (fun r => r.transaction_id) b).map (fun r => r.transaction_id) :=
    mapMO_map_eq (fun a b2 hab => cleanRow_tid hab) h
  refine ⟨by rw [hkeys]; exact dedupFirst_keys_nodup, ?_, ?_⟩
  · intro r hr
    have hk : r.transaction_id ∈
        (dedupFirst (fun r => r.transaction_id) b).map (fun r => r.transaction_id) :=
      dedupFirst_mem_keys hr
    rw [← hkeys] at hk
    rcases List.mem_map.mp hk with ⟨r2, hr2, hk2⟩
    exact ⟨r2, hr2, hk2⟩
  · intro r2 hr2
    rcases mapMO_backward h r2 hr2 with ⟨r, hrd, hclean⟩
    rcases dedupFirst_decomp hrd with ⟨pre, post, hdec, hpre⟩
    exact ⟨r, pre, post, hdec, hclean, (cleanRow_tid hclean).symm, hpre⟩

/-! ## Concrete sample rows used by the witnesses -/

def wSaleA : RawSale :=
  { transaction_id := .str ("T1"), date := .str ("2024-01-15"),
    product_id := .str ("P1"), quantity := .str ("2"), unit_price := .num 30,
    customer_id := .null, store_id := .str ("S1"), discount_pct := .null }

/-- A duplicate of `wSaleA`'s transaction id with a different price. -/
def wSaleB : RawSale :=
  { wSaleA with unit_price := .num 31 }

def wSaleC : RawSale :=
  { transaction_id := .str ("T2"), date := .str ("nope"),
    product_id := .str ("P2"), quantity := .num 3,
    unit_price := .str ("9.5"), customer_id := .str ("C7"),
    store_id := .str ("S2"), discount_pct := .num (1/10) }

/-- `wSaleA` after cleaning. -/
def wCleanA : RawSale :=
  { transaction_id := .str ("T1"), date := .date ⟨2024, 1, 15⟩,
    product_id := .str ("P1"), quantity := .num 2, unit_price := .num 30,
    customer_id := .str ("UNKNOWN"), store_id := .str ("S1"),
    discount_pct := .num 0 }

/-- `wSaleC` after cleaning. -/
def wCleanC : RawSale :=
  { transaction_id := .str ("T2"), date := .null,
    product_id := .str ("P2"), quantity := .num 3,
    unit_price := .num (19/2), customer_id := .str ("C7"),
    store_id := .str ("S2"), discount_pct := .num (1/10) }

/-- Witness for C6 at a concrete batch with a duplicate key, a bad date,
a missing customer id and string-typed numerics. -/
theorem clean_sales_idem_witness :
    clean_sales [wSaleA, wSaleB, wSaleC] = some [wCleanA, wCleanC] ∧
    clean_sales [wCleanA, wCleanC] = some [wCleanA, wCleanC] :=
  ⟨by with_unfolding_all rfl,
   clean_sales_idem [wSaleA, wSaleB, wSaleC] [wCleanA, wCleanC]
     (by with_unfolding_all rfl)⟩

/-- Witness for C7 at the same concrete batch. -/
theorem clean_sales_dedup_spec_witness :
    (([wCleanA, wCleanC]).map (fun r => r.transaction_id)).Nodup ∧
    (∀ r ∈ [wSaleA, wSaleB, wSaleC], ∃ r2 ∈ [wCleanA, wCleanC],
      r2.transaction_id = r.transaction_id) ∧
    (∀ r2 ∈ [wCleanA, wCleanC], ∃ r pre post,
      [wSaleA, wSaleB, wSaleC] = pre ++ r :: post ∧ cleanRow r = some r2 ∧
      r.transaction_id = r2.transaction_id ∧
      ∀ p ∈ pre, p.transaction_id ≠ r.transaction_id) :=
  clean_sales_dedup_spec [wSaleA, wSaleB, wSaleC] [wCleanA, wCleanC]
    (by with_unfolding_all rfl)

/-! ## Lemmas about the left join -/

theorem filter_key_unique {α κ : Type} [DecidableEq κ] {key : α → κ}
    {l : List α} (h : (l.map key).Nodup) (k : κ) :
    l.filter (fun x => key x = k) = [] ∨
      ∃ x, l.filter (fun x => key x = k) = [x] := by
  induction l with
  | nil => exact Or.inl rfl
  | cons a l ih =>
    rw [List.map_cons, List.nodup_cons] at h
    by_cases ha : key a = k
    · refine Or.inr ⟨a, ?_⟩
      have hrest : l.filter (fun x => key x = k) = [] := by
        rw [List.filter_eq_nil_iff]
        intro x hx
        simp only [decide_eq_true_eq]
        intro hxk
        exact h.1 ((ha.trans hxk.symm) ▸ List.mem_map_of_mem key hx)
      simp [List.filter_cons, ha, hrest]
    · have := ih h.2
      simpa [List.filter_cons, ha] using this

theorem find?_of_filter_eq_singleton {α : Type} {p : α → Bool} :
    ∀ {l : List α} {x : α}, l.filter p = [x] → l.find? p = some x := by
  intro l
  induction l with
  | nil => intro x h; exact absurd h (by simp)
  | cons a l ih =>
    intro x h
    cases hp : p a with
    | true =>
      rw [List.filter_cons_of_pos hp] at h
      simp only [List.cons.injEq] at h
      rw [List.find?_cons_of_pos _ hp, h.1]
    | false =>
      rw [List.filter_cons_of_neg (by simp [hp])] at h
      rw [List.find?_cons_of_neg _ (by simp [hp])]
      exact ih h

theorem find?_of_filter_eq_nil {α : Type} {p : α → Bool} {l : List α}
    (h : l.filter p = []) : l.find? p = none := by
  rw [List.find?_eq_none]
  intro x hx
  exact (List.filter_eq_nil_iff.mp h) x hx

/-- Under unique catalogue keys the left join is exactly a per-row
lookup. -/
theorem merge_eq_map_lookup {sales : List RawSale} {products : List Product}
    (h : (products.map (fun p => p.product_id)).Nodup) :
    merge_sales_products sales products = sales.map (enrichLookup products) := by
  induction sales with
  | nil => rfl
  | cons s ss ih =>
    have hrow : mergeRow products s = [enrichLookup products s] := by
      unfold mergeRow enrichLookup
      rcases filter_key_unique h s.product_id with hnil | ⟨p, hp⟩
      · rw [hnil, find?_of_filter_eq_nil hnil]
      · rw [hp, find?_of_filter_eq_singleton hp]
        rfl
    simp only [merge_sales_products, List.flatMap_cons, List.map_cons]
    rw [hrow]
    simp only [List.singleton_append]
    exact congrArg (List.cons _) (by simpa [merge_sales_products] using ih)

theorem getD_map {α β : Type} {f : α → β} {d : α} :
    ∀ {l : List α} {i : Nat}, i < l.length →
      (l.map f).getD i (f d) = f (l.getD i d) := by
  intro l
  induction l with
  | nil => intro i hi; exact absurd hi (by simp)
  | cons a l ih =>
    intro i hi
    cases i with
    | zero => rfl
    | succ j =>
      simp only [List.map_cons, List.getD_cons_succ]
      exact ih (by simpa using hi)

theorem enrichLookup_toRawSale (products : List Product) (s : RawSale) :
    (enrichLookup products s).toRawSale = s := by
  unfold enrichLookup
  cases products.find? (fun p => p.product_id = s.product_id) <;> rfl

/-- Claim C5: with unique catalogue keys the left join yields exactly one
output row per sales row, and an unmatched sales row carries null
product columns. -/
theorem merge_sales_products_left_join (sales : List RawSale)
    (products : List Product)
    (h : (products.map (fun p => p.product_id)).Nodup) :
    (merge_sales_products sales products).length = sales.length ∧
    ∀ i, i < sales.length →
      (∀ p ∈ products, p.product_id ≠ (sales.getD i nullSale).product_id) →
      ((merge_sales_products sales products).getD i
          (enrichLookup products nullSale)).name = Value.null ∧
      ((merge_sales_products sales products).getD i
          (enrichLookup products nullSale)).category = Value.null ∧
      ((merge_sales_products sales products).getD i
          (enrichLookup products nullSale)).brand = Value.null ∧
      ((merge_sales_products sales products).getD i
          (enrichLookup products nullSale)).cost_price = Value.null := by
  rw [merge_eq_map_lookup h]
  refine ⟨by simp, ?_⟩
  intro i hi hnone
  rw [getD_map hi]
  have hfind : products.find?
      (fun p => p.product_id = (sales.getD i nullSale).product_id) = none := by
    rw [List.find?_eq_none]
    intro p hp
    simp only [decide_eq_true_eq]
    exact hnone p hp
  unfold enrichLookup
  rw [hfind]
  exact ⟨rfl, rfl, rfl, rfl⟩

/-- Claim C9: with unique catalogue keys the left join preserves order: output
row `i` is input sales row `i` extended with the looked-up product
columns. -/
theorem merge_sales_products_order (sales : List RawSale)
    (products : List Product)
    (h : (products.map (fun p => p.product_id)).Nodup) :
    (merge_sales_products sales products).length = sales.length ∧
    ∀ i, i < sales.length →
      (merge_sales_products sales products).getD i
          (enrichLookup products nullSale) =
        enrichLookup products (sales.getD i nullSale) ∧
      ((merge_sales_products sales products).getD i
          (enrichLookup products nullSale)).toRawSale = sales.getD i nullSale := by
  rw [merge_eq_map_lookup h]
  refine ⟨by simp, ?_⟩
  intro i hi
  rw [getD_map hi]
  exact ⟨rfl, enrichLookup_toRawSale products _⟩

/-! ## Null propagation through the metric formulas -/

theorem vbin_null_right (f : ℚ → ℚ → ℚ) (a : Value) :
    vbin f a .null = .null := by
  cases a <;> rfl

theorem vbin_null_left (f : ℚ → ℚ → ℚ) (b : Value) :
    vbin f .null b = .null := by
  cases b <;> rfl

theorem vdiv_null_right (a : Value) : vdiv a .null = .null := by
  cases a <;> rfl

theorem replaceZero_zero : replaceZero (.num 0) = .null := by
  simp [replaceZero]

theorem vmul_null_right (a : Value) : vmul a .null = .null :=
  vbin_null_right _ a

theorem vmul_null_left (b : Value) : vmul .null b = .null :=
  vbin_null_left _ b

theorem vsub_null_right (a : Value) : vsub a .null = .null :=
  vbin_null_right _ a

theorem calcMetricsRow_cost_null {r : Enriched} (hc : r.cost_price = .null) :
    (calcMetricsRow r).cost_total = .null ∧ (calcMetricsRow r).profit = .null := by
  have h1 : (calcMetricsRow r).cost_total = .null := by
    show vmul r.quantity r.cost_price = .null
    rw [hc]
    exact vmul_null_right _
  refine ⟨h1, ?_⟩
  show vsub (calcMetricsRow r).net_revenue (calcMetricsRow r).cost_total = .null
  rw [h1]
  exact vsub_null_right _

theorem calcMetricsRow_margin_null {r : Enriched}
    (h : (calcMetricsRow r).net_revenue = .null ∨
      (calcMetricsRow r).net_revenue = .num 0) :
    (calcMetricsRow r).profit_margin_pct = .null := by
  have hnet : replaceZero ((calcMetricsRow r).net_revenue) = .null := by
    rcases h with h0 | h0 <;> rw [h0]
    · rfl
    · exact replaceZero_zero
  show vround2 (vmul (vdiv (calcMetricsRow r).profit
    (replaceZero (calcMetricsRow r).net_revenue)) (.num 100)) = .null
  rw [hnet, vdiv_null_right, vmul_null_left]
  rfl

/-- Claim C4: per row, a null `cost_price` yields null `cost_total` and null
`profit`, and a null or exactly-zero computed `net_revenue` yields a
null `profit_margin_pct` (no infinity and no zero stand-in is ever
produced for an undefined margin). -/
theorem calculate_metrics_null_prop (df : List Enriched) (i : Nat)
    (hi : i < df.length) :
    ((df.getD i nullEnriched).cost_price = Value.null →
      ((calculate_metrics df).getD i (calcMetricsRow nullEnriched)).cost_total =
          Value.null ∧
      ((calculate_metrics df).getD i (calcMetricsRow nullEnriched)).profit =
          Value.null) ∧
    ((((calculate_metrics df).getD i (calcMetricsRow nullEnriched)).net_revenue =
          Value.null ∨
      ((calculate_metrics df).getD i (calcMetricsRow nullEnriched)).net_revenue =
          Value.num 0) →
      ((calculate_metrics df).getD i
          (calcMetricsRow nullEnriched)).profit_margin_pct = Value.null) := by
  have hm : (calculate_metrics df).getD i (calcMetricsRow nullEnriched) =
      calcMetricsRow (df.getD i nullEnriched) := getD_map hi
  rw [hm]
  exact ⟨calcMetricsRow_cost_null, calcMetricsRow_margin_null⟩

/-! ## Lemmas about grouping and summation -/

theorem qsum_perm {l1 l2 : List Value} (h : List.Perm l1 l2) :
    qsum l1 = qsum l2 :=
  (h.map qval).sum_eq

theorem qsum_map_num {α : Type} (f : α → ℚ) (l : List α) :
    qsum (l.map (fun k => Value.num (f k))) = (l.map f).sum := by
  induction l with
  | nil => rfl
  | cons a l ih =>
    simp only [List.map_cons, qsum, List.sum_cons] at *
    rw [ih]
    rfl

theorem dedupFirst_id_nodup {l : List Value} : (dedupFirst id l).Nodup := by
  have h := @dedupFirst_keys_nodup Value Value _ id l
  simpa using h

theorem dedupFirst_id_mem {l : List Value} {x : Value} (hx : x ∈ l) :
    x ∈ dedupFirst id l := by
  have h := @dedupFirst_mem_keys Value Value _ id l x hx
  simpa using h

theorem dedupFirst_id_subset {l : List Value} {x : Value}
    (hx : x ∈ dedupFirst id l) : x ∈ l := by
  rcases dedupFirst_decomp hx with ⟨pre, post, hdec, _⟩
  rw [hdec]
  exact List.mem_append_right pre (List.mem_cons_self _ _)

theorem groupKeys_nodup {col : List Value} : (groupKeys col).Nodup :=
  dedupFirst_id_nodup

theorem groupKeys_nonnull {col : List Value} {k : Value}
    (hk : k ∈ groupKeys col) : isNullB k = false := by
  have := dedupFirst_id_subset hk
  simpa using (List.mem_filter.mp this).2

theorem groupKeys_complete {col : List Value} {v : Value} (hv : v ∈ col)
    (hnn : isNullB v = false) : v ∈ groupKeys col :=
  dedupFirst_id_mem (List.mem_filter.mpr ⟨hv, by simp [hnn]⟩)

theorem sum_filter_split {α : Type} (w : α → ℚ) (p q : α → Bool) (l : List α) :
    ((l.filter p).map w).sum =
      ((l.filter (fun a => p a && q a)).map w).sum +
      ((l.filter (fun a => p a && !(q a))).map w).sum := by
  induction l with
  | nil => simp
  | cons a l ih =>
    cases hp : p a <;> cases hq : q a <;>
      simp [List.filter_cons, hp, hq, ih] <;> ring

/-- Splitting a skip-null sum over the distinct non-null key values:
the per-group sums over any duplicate-free, null-free list of keys
covering the non-null keys add up to the sum over the non-null-key
rows. -/
theorem sum_over_groups {α : Type} (w : α → ℚ) (key : α → Value) :
    ∀ (ks : List Value), ks.Nodup →
      ∀ (l : List α),
      (∀ r ∈ l, isNullB (key r) = false → key r ∈ ks) →
      (∀ k ∈ ks, isNullB k = false) →
      (ks.map (fun k => ((l.filter (fun r => key r = k)).map w).sum)).sum =
        ((l.filter (fun r => !(isNullB (key r)))).map w).sum := by
  intro ks
  induction ks with
  | nil =>
    intro _ l hcov _
    have hnil : l.filter (fun r => !(isNullB (key r))) = [] := by
      rw [List.filter_eq_nil_iff]
      intro r hr
      cases h : isNullB (key r) with
      | false => exact absurd (hcov r hr h) (by simp)
      | true => simp [h]
    simp [hnil]
  | cons k ks ih =>
    intro hnd l hcov hnn
    rw [List.nodup_cons] at hnd
    have hknn : isNullB k = false := hnn k (List.mem_cons_self _ _)
    have hsplit := sum_filter_split w (fun r => !(isNullB (key r)))
      (fun r => key r = k) l
    have hp1 : l.filter (fun r => !(isNullB (key r)) && decide (key r = k)) =
        l.filter (fun r => key r = k) := by
      apply List.filter_congr
      intro r _
      by_cases hkr : key r = k
      · simp [hkr, hknn]
      · simp [hkr]
    have hp2 : l.filter (fun r => !(isNullB (key r)) && !(decide (key r = k))) =
        (l.filter (fun r => !(decide (key r = k)))).filter
          (fun r => !(isNullB (key r))) := by
      rw [List.filter_filter]
    have htail : (ks.map (fun j =>
        ((l.filter (fun r => key r = j)).map w).sum)).sum =
        (ks.map (fun j =>
          (((l.filter (fun r => !(decide (key r = k)))).filter
            (fun r => key r = j)).map w).sum)).sum := by
      apply congrArg
      apply List.map_congr_left
      intro j hj
      have hjk : j ≠ k := by
        intro hc
        exact hnd.1 (hc ▸ hj)
      have : (l.filter (fun r => !(decide (key r = k)))).filter
          (fun r => key r = j) =
          l.filter (fun r => key r = j) := by
        rw [List.filter_filter]
        apply List.filter_congr
        intro r _
        by_cases hkr : key r = j
        · simp [hkr, hjk]
        · simp [hkr]
      rw [this]
    have hihyp : ∀ r ∈ l.filter (fun r => !(decide (key r = k))),
        isNullB (key r) = false → key r ∈ ks := by
      intro r hr hnnr
      have hrl := List.mem_filter.mp hr
      have hne : ¬ (key r = k) := by
        have := hrl.2
        simp only [Bool.not_eq_true', decide_eq_false_iff_not] at this
        exact this
      rcases List.mem_cons.mp (hcov r hrl.1 hnnr) with h1 | h2
      · exact absurd h1 hne
      · exact h2
    have hihnn : ∀ j ∈ ks, isNullB j = false := fun j hj =>
      hnn j (List.mem_cons_of_mem _ hj)
    calc ((k :: ks).map (fun j =>
          ((l.filter (fun r => key r = j)).map w).sum)).sum
        = ((l.filter (fun r => key r = k)).map w).sum +
          (ks.map (fun j =>
            ((l.filter (fun r => key r = j)).map w).sum)).sum := by
          simp
      _ = ((l.filter (fun r => key r = k)).map w).sum +
          (((l.filter (fun r => !(decide (key r = k)))).filter
            (fun r => !(isNullB (key r)))).map w).sum := by
          rw [htail,
            ih hnd.2 (l.filter (fun r => !(decide (key r = k)))) hihyp hihnn]
      _ = ((l.filter (fun r => !(isNullB (key r)))).map w).sum := by
          rw [← hp2, ← hp1] at *
          rw [hsplit]

theorem qsum_map {α : Type} (f : α → Value) (l : List α) :
    qsum (l.map f) = (l.map (fun x => qval (f x))).sum := by
  rw [qsum, List.map_map]
  rfl

theorem cents_sum {α : Type} {w : α → ℚ} {l : List α}
    (h : ∀ x ∈ l, ∃ m : ℤ, w x = (m : ℚ) / 100) :
    ∃ M : ℤ, (l.map w).sum = (M : ℚ) / 100 := by
  induction l with
  | nil => exact ⟨0, by simp⟩
  | cons a l ih =>
    rcases h a (List.mem_cons_self _ _) with ⟨m, hm⟩
    rcases ih (fun x hx => h x (List.mem_cons_of_mem _ hx)) with ⟨M, hM⟩
    refine ⟨m + M, ?_⟩
    simp only [List.map_cons, List.sum_cons, hm, hM]
    push_cast
    ring

theorem round2_cents (M : ℤ) : round2 ((M : ℚ) / 100) = (M : ℚ) / 100 := by
  unfold round2
  have h : (M : ℚ) / 100 * 100 = (M : ℚ) := by field_simp
  rw [h, round_intCast]

theorem vmean_all_null {l : List Value} (h : ∀ v ∈ l, v = Value.null) :
    vmean l = Value.null := by
  have hnil : l.filterMap
      (fun v => match v with | .num q => some q | _ => none) = [] := by
    rw [List.filterMap_eq_nil_iff]
    intro a ha
    rw [h a ha]
  unfold vmean
  rw [hnil]

/-- Claim C1 (amended): in all three aggregations the rows whose grouping key
is null are dropped, and the output holds exactly one group per distinct
non-null key value. -/
theorem aggregations_drop_null_keys (df : List Metrics) :
    List.Perm ((aggregate_by_category df).map (fun s => s.category))
      (groupKeys (df.map (fun r => r.category))) ∧
    List.Perm ((aggregate_by_store df).map (fun s => s.store_id))
      (groupKeys (df.map (fun r => r.store_id))) ∧
    List.Perm ((aggregate_by_date df).map (fun s => s.date))
      (groupKeys (df.map (fun r => r.date))) := by
  refine ⟨?_, ?_, ?_⟩
  · unfold aggregate_by_category
    have h2 := (List.perm_insertionSort catRevDesc
      ((groupKeys (df.map (fun r => r.category))).map (mkCatRow df))).map
      (fun s => s.category)
    rw [List.map_map] at h2
    have h3 : (groupKeys (df.map (fun r => r.category))).map
        ((fun s : CatSummary => s.category) ∘ mkCatRow df) =
        groupKeys (df.map (fun r => r.category)) := by
      rw [List.map_congr_left (fun k _ => rfl : ∀ k ∈ groupKeys
        (df.map (fun r => r.category)),
        ((fun s : CatSummary => s.category) ∘ mkCatRow df) k = id k)]
      exact List.map_id _
    rw [h3] at h2
    exact h2
  · unfold aggregate_by_store
    have h2 := (List.perm_insertionSort storeRevDesc
      ((groupKeys (df.map (fun r => r.store_id))).map (mkStoreRow df))).map
      (fun s => s.store_id)
    rw [List.map_map] at h2
    have h3 : (groupKeys (df.map (fun r => r.store_id))).map
        ((fun s : StoreSummary => s.store_id) ∘ mkStoreRow df) =
        groupKeys (df.map (fun r => r.store_id)) := by
      rw [List.map_congr_left (fun k _ => rfl : ∀ k ∈ groupKeys
        (df.map (fun r => r.store_id)),
        ((fun s : StoreSummary => s.store_id) ∘ mkStoreRow df) k = id k)]
      exact List.map_id _
    rw [h3] at h2
    exact h2
  · unfold aggregate_by_date
    have h2 := (List.perm_insertionSort dateAsc
      ((groupKeys (df.map (fun r => r.date))).map (mkDateRow df))).map
      (fun s => s.date)
    rw [List.map_map] at h2
    have h3 : (groupKeys (df.map (fun r => r.date))).map
        ((fun s : DateSummary => s.date) ∘ mkDateRow df) =
        groupKeys (df.map (fun r => r.date)) := by
      rw [List.map_congr_left (fun k _ => rfl : ∀ k ∈ groupKeys
        (df.map (fun r => r.date)),
        ((fun s : DateSummary => s.date) ∘ mkDateRow df) k = id k)]
      exact List.map_id _
    rw [h3] at h2
    exact h2

/-- Claim C3 (amended): when every row's `net_revenue` is null or a whole
number of cents (so that rounding the group sums to 2 decimal places is
exact), the summed `total_net_revenue` of the category summary equals
the batch-wide sum of `net_revenue` over the rows whose `category` is
non-null; rows with a null category are dropped by the grouping and do
not contribute. -/
theorem aggregate_by_category_conservation (df : List Metrics)
    (h : ∀ r ∈ df, ∃ m : ℤ, qval r.net_revenue = (m : ℚ) / 100) :
    qsum ((aggregate_by_category df).map (fun s => s.total_net_revenue)) =
      qsum ((df.filter (fun r => !(isNullB r.category))).map
        (fun r => r.net_revenue)) := by
  have hperm : List.Perm
      ((aggregate_by_category df).map (fun s => s.total_net_revenue))
      (((groupKeys (df.map (fun r => r.category))).map (mkCatRow df)).map
        (fun s => s.total_net_revenue)) := by
    unfold aggregate_by_category
    exact (List.perm_insertionSort _ _).map _
  rw [qsum_perm hperm]
  have hmap : ((groupKeys (df.map (fun r => r.category))).map (mkCatRow df)).map
      (fun s => s.total_net_revenue) =
      (groupKeys (df.map (fun r => r.category))).map (fun k =>
        Value.num (round2 (qsum ((groupOf (fun r => r.category) df k).map
          (fun r => r.net_revenue))))) := by
    rw [List.map_map]
    exact List.map_congr_left (fun k _ => rfl)
  rw [hmap, qsum_map_num]
  have hround : (groupKeys (df.map (fun r => r.category))).map (fun k =>
      round2 (qsum ((groupOf (fun r => r.category) df k).map
        (fun r => r.net_revenue)))) =
      (groupKeys (df.map (fun r => r.category))).map (fun k =>
        qsum ((groupOf (fun r => r.category) df k).map
          (fun r => r.net_revenue))) := by
    apply List.map_congr_left
    intro k _
    have hcents : ∃ M : ℤ,
        qsum ((groupOf (fun r => r.category) df k).map
          (fun r => r.net_revenue)) = (M : ℚ) / 100 := by
      rw [qsum_map]
      apply cents_sum
      intro r hr
      exact h r (List.mem_of_mem_filter hr)
    rcases hcents with ⟨M, hM⟩
    rw [hM, round2_cents]
  rw [hround]
  have hpart := sum_over_groups (fun r => qval r.net_revenue)
    (fun r => r.category) (groupKeys (df.map (fun r => r.category)))
    groupKeys_nodup df
    (fun r hr hnn => groupKeys_complete (List.mem_map_of_mem _ hr) hnn)
    (fun k hk => groupKeys_nonnull hk)
  have hL : (groupKeys (df.map (fun r => r.category))).map (fun k =>
      qsum ((groupOf (fun r => r.category) df k).map
        (fun r => r.net_revenue))) =
      (groupKeys (df.map (fun r => r.category))).map (fun k =>
        ((df.filter (fun r => r.category = k)).map
          (fun r => qval r.net_revenue)).sum) := by
    apply List.map_congr_left
    intro k _
    rw [qsum_map]
    rfl
  rw [hL, hpart, qsum_map]

/-- Claim C10: a store group whose rows all have a null `profit_margin_pct`
gets a null `avg_profit_margin_pct` (the skip-null mean of an all-null
column), while its counts and sums are still numeric values. -/
theorem aggregate_by_store_allnull_mean (df : List Metrics) (s : StoreSummary)
    (hs : s ∈ aggregate_by_store df)
    (hnull : ∀ r ∈ df, r.store_id = s.store_id →
      r.profit_margin_pct = Value.null) :
    s.avg_profit_margin_pct = Value.null ∧
    (∃ q, s.total_net_revenue = Value.num q) ∧
    (∃ q, s.total_profit = Value.num q) ∧
    (∃ q, s.total_units_sold = Value.num q) := by
  unfold aggregate_by_store at hs
  have hs2 : s ∈ (groupKeys (df.map (fun r => r.store_id))).map
      (mkStoreRow df) :=
    (List.perm_insertionSort _ _).mem_iff.mp hs
  rcases List.mem_map.mp hs2 with ⟨k, hk, hsk⟩
  subst hsk
  refine ⟨?_, ⟨_, rfl⟩, ⟨_, rfl⟩, ⟨_, rfl⟩⟩
  show vround2 (vmean ((groupOf (fun r => r.store_id) df k).map
    (fun r => r.profit_margin_pct))) = Value.null
  have hall : ∀ v ∈ (groupOf (fun r => r.store_id) df k).map
      (fun r => r.profit_margin_pct), v = Value.null := by
    intro v hv
    rcases List.mem_map.mp hv with ⟨r, hr, hrv⟩
    have hmem := List.mem_filter.mp hr
    have hrk : r.store_id = k := by
      have h2 := hmem.2
      simpa using h2
    exact hrv ▸ hnull r hmem.1 hrk
  rw [vmean_all_null hall]
  rfl

/-! ## Validator behaviour on a missing column -/

theorem getCol_eq_none {df : DFrame} {col : String}
    (h : col ∉ colNames df) : getCol df col = none := by
  unfold getCol
  rw [List.find?_eq_none.mpr]
  · rfl
  · intro p hp
    simp only [decide_eq_true_eq]
    intro hc
    exact h (hc ▸ List.mem_map_of_mem Prod.fst hp)

/-- Claim C2 (amended): on a missing column the uniqueness, numeric-range and
date-format checks fail with a message naming the column, but
`check_no_nulls` skips the missing column and (asked about only that
column) passes. -/
theorem checks_missing_column (df : DFrame) (col : String) (mn mx : ℚ)
    (h : col ∉ colNames df) :
    (check_no_duplicates df col).passed = false ∧
    (check_no_duplicates df col).message = VMessage.columnNotFound col ∧
    (check_numeric_range df col mn mx).passed = false ∧
    (check_numeric_range df col mn mx).message = VMessage.columnNotFound col ∧
    (check_date_format df col).passed = false ∧
    (check_date_format df col).message = VMessage.columnNotFound col ∧
    (check_no_nulls df [col]).passed = true := by
  have hg := getCol_eq_none h
  refine ⟨?_, ?_, ?_, ?_, ?_, ?_, ?_⟩
  · unfold check_no_duplicates; rw [hg]
  · unfold check_no_duplicates; rw [hg]
  · unfold check_numeric_range; rw [hg]
  · unfold check_numeric_range; rw [hg]
  · unfold check_date_format; rw [hg]
  · unfold check_date_format; rw [hg]
  · unfold check_no_nulls
    simp [hg]

/-! ## Concrete metrics rows, catalogue rows and frames for the
counterexamples and witnesses -/

/-- A metrics row whose product was unmatched: null category, non-null
net revenue. -/
def wMetNullCat : Metrics :=
  { transaction_id := .str ("T9"), date := .null, product_id := .str ("PX"),
    quantity := .num 1, unit_price := .num 10, customer_id := .str ("C1"),
    store_id := .str ("S1"), discount_pct := .num 0,
    name := .null, category := .null, brand := .null, cost_price := .null,
    gross_revenue := .num 10, discount_amount := .num 0,
    net_revenue := .num 10, cost_total := .null, profit := .null,
    profit_margin_pct := .null }

/-- A matched metrics row with a cent-valued net revenue. -/
def wMetE : Metrics :=
  { transaction_id := .str ("T8"), date := .date ⟨2024, 1, 16⟩,
    product_id := .str ("P1"), quantity := .num 2, unit_price := .num 10,
    customer_id := .str ("C2"), store_id := .str ("S1"),
    discount_pct := .num 0, name := .str ("Mouse"),
    category := .str ("Electronics"), brand := .str ("TG"),
    cost_price := .num 5, gross_revenue := .num 20,
    discount_amount := .num 0, net_revenue := .num (1999/100),
    cost_total := .num 10, profit := .num (999/100),
    profit_margin_pct := .num 50 }

def wProd1 : Product :=
  { product_id := .str ("P1"), name := .str ("Wireless Mouse"),
    category := .str ("Electronics"), brand := .str ("TechGear"),
    cost_price := .num (25/2) }

/-- An enriched row with a null cost price and a zero net revenue. -/
def wEnrZero : Enriched :=
  { transaction_id := .str ("T3"), date := .null, product_id := .str ("PX"),
    quantity := .num 0, unit_price := .num 5, customer_id := .str ("C1"),
    store_id := .str ("S1"), discount_pct := .num 0,
    name := .null, category := .null, brand := .null, cost_price := .null }

def exDF : DFrame := [(("a"), [Value.num 1])]

/-- Counterexample to C1 as stated: a batch with a null-category row
yields no category-summary group at all for it — the null key is
dropped, not given its own group. -/
theorem aggregate_null_key_dropped_cex :
    (∃ r ∈ [wMetNullCat], r.category = Value.null) ∧
    aggregate_by_category [wMetNullCat] = [] :=
  ⟨⟨wMetNullCat, List.mem_singleton.mpr rfl, rfl⟩, by decide⟩

/-- Counterexample to C3 as stated: with a null-category row carrying
net revenue 10, the summary total is 0 while the batch-wide sum is 10 —
a discrepancy rounding cannot account for. -/
theorem aggregate_conservation_cex :
    qsum ((aggregate_by_category [wMetNullCat]).map
      (fun s => s.total_net_revenue)) = 0 ∧
    qsum ([wMetNullCat].map (fun r => r.net_revenue)) = 10 := by
  constructor
  · with_unfolding_all rfl
  · with_unfolding_all rfl

/-- Counterexample to C2 as stated: `check_no_nulls` on one missing
column returns `passed = true`, not a failure. -/
theorem check_no_nulls_missing_cex :
    ("b") ∉ colNames exDF ∧ (check_no_nulls exDF [("b")]).passed = true := by
  decide

/-- Witness for C2 (amended) at a concrete one-column frame and a
missing column name. -/
theorem checks_missing_column_witness :
    (check_no_duplicates exDF ("b")).passed = false ∧
    (check_no_duplicates exDF ("b")).message = VMessage.columnNotFound ("b") ∧
    (check_numeric_range exDF ("b") 0 1).passed = false ∧
    (check_numeric_range exDF ("b") 0 1).message =
      VMessage.columnNotFound ("b") ∧
    (check_date_format exDF ("b")).passed = false ∧
    (check_date_format exDF ("b")).message = VMessage.columnNotFound ("b") ∧
    (check_no_nulls exDF [("b")]).passed = true :=
  checks_missing_column exDF ("b") 0 1 (by decide)

/-- Witness for C3 (amended) at a two-row batch, one row with a null
category: both sides evaluate to 19.99. -/
theorem aggregate_by_category_conservation_witness :
    qsum ((aggregate_by_category [wMetE, wMetNullCat]).map
      (fun s => s.total_net_revenue)) =
      qsum (([wMetE, wMetNullCat].filter
        (fun r => !(isNullB r.category))).map (fun r => r.net_revenue)) :=
  aggregate_by_category_conservation [wMetE, wMetNullCat] (by
    intro r hr
    rcases List.mem_cons.mp hr with rfl | hr2
    · exact ⟨1999, by with_unfolding_all rfl⟩
    · rcases List.mem_singleton.mp hr2 with rfl
      exact ⟨1000, by with_unfolding_all rfl⟩)

/-- Witness for C4 at a row with a null cost price and zero net
revenue. -/
theorem calculate_metrics_null_prop_witness :
    wEnrZero.cost_price = Value.null ∧
    ((calculate_metrics [wEnrZero]).getD 0
      (calcMetricsRow nullEnriched)).net_revenue = Value.num 0 ∧
    ((calculate_metrics [wEnrZero]).getD 0
      (calcMetricsRow nullEnriched)).cost_total = Value.null ∧
    ((calculate_metrics [wEnrZero]).getD 0
      (calcMetricsRow nullEnriched)).profit = Value.null ∧
    ((calculate_metrics [wEnrZero]).getD 0
      (calcMetricsRow nullEnriched)).profit_margin_pct = Value.null := by
  have h := calculate_metrics_null_prop [wEnrZero] 0 (by decide)
  have hnet : ((calculate_metrics [wEnrZero]).getD 0
      (calcMetricsRow nullEnriched)).net_revenue = Value.num 0 := by
    with_unfolding_all rfl
  have hc := h.1 rfl
  exact ⟨rfl, hnet, hc.1, hc.2, h.2 (Or.inr hnet)⟩

/-- Witness for C5 at a two-row sales batch against a one-product
catalogue whose second sales row is unmatched. -/
theorem merge_sales_products_left_join_witness :
    (merge_sales_products [wCleanA, wCleanC] [wProd1]).length = 2 ∧
    ((merge_sales_products [wCleanA, wCleanC] [wProd1]).getD 1
      (enrichLookup [wProd1] nullSale)).name = Value.null ∧
    ((merge_sales_products [wCleanA, wCleanC] [wProd1]).getD 1
      (enrichLookup [wProd1] nullSale)).category = Value.null ∧
    ((merge_sales_products [wCleanA, wCleanC] [wProd1]).getD 1
      (enrichLookup [wProd1] nullSale)).brand = Value.null ∧
    ((merge_sales_products [wCleanA, wCleanC] [wProd1]).getD 1
      (enrichLookup [wProd1] nullSale)).cost_price = Value.null := by
  have h := merge_sales_products_left_join [wCleanA, wCleanC] [wProd1]
    (by decide)
  have h2 := h.2 1 (by decide) (by decide)
  exact ⟨h.1, h2.1, h2.2.1, h2.2.2.1, h2.2.2.2⟩

/-- Witness for C9 at the same concrete join: output row 0 is the
matched extension of sales row 0. -/
theorem merge_sales_products_order_witness :
    (merge_sales_products [wCleanA, wCleanC] [wProd1]).getD 0
      (enrichLookup [wProd1] nullSale) = enrichLookup [wProd1] wCleanA ∧
    ((merge_sales_products [wCleanA, wCleanC] [wProd1]).getD 0
      (enrichLookup [wProd1] nullSale)).toRawSale = wCleanA := by
  have h := merge_sales_products_order [wCleanA, wCleanC] [wProd1] (by decide)
  have h0 := h.2 0 (by decide)
  exact ⟨h0.1, h0.2⟩

/-- The store-summary row produced for `[wMetNullCat]`. -/
def wStoreSum : StoreSummary :=
  { store_id := .str ("S1"), total_transactions := 1,
    total_units_sold := .num 1, total_net_revenue := .num 10,
    total_profit := .num 0, avg_profit_margin_pct := .null }

/-- Witness for C10 at a one-row batch whose single store group has an
all-null margin column. -/
theorem aggregate_by_store_allnull_mean_witness :
    wStoreSum.avg_profit_margin_pct = Value.null ∧
    (∃ q, wStoreSum.total_net_revenue = Value.num q) ∧
    (∃ q, wStoreSum.total_profit = Value.num q) ∧
    (∃ q, wStoreSum.total_units_sold = Value.num q) :=
  aggregate_by_store_allnull_mean [wMetNullCat] wStoreSum
    (by
      have heq : aggregate_by_store [wMetNullCat] = [wStoreSum] := by
        with_unfolding_all rfl
      rw [heq]
      exact List.mem_singleton.mpr rfl)
    (by
      intro r hr h2
      rcases List.mem_singleton.mp hr with rfl
      rfl)
